import Mathlib

/-!
# Verification of the lookup-and-classification engine

Shallow embedding of the core logic of the component-data processing
repository:

* `src/src/data_handlers/lookup_processor.py` — `LookupProcessor.perform_lookup`
  (composite keys, first-occurrence deduplication, the null→"0" sentinel,
  match/miss counting) and `LookupProcessor.process_lookup_results` /
  `_process_single_row` with its five status handlers.
* `src/enhanced_lookup_processor.py` — `EnhancedLookupProcessor.suggest_column`,
  `analyze_project_columns`, `get_column_suggestions` and
  `find_best_project_column`.

Cell values are modelled as `Option String` (`none` models a pandas
null/NaN cell, `some s` a scalar rendered as the string `s`).  Python
string operations are re-implemented over `List Char` so that all
definitions evaluate inside the kernel.
-/

/-- Python `str.upper()` (ASCII case mapping, which covers every string the
program compares against: `"D"`, `"X"`, `"A"` and column names). -/
def py_upper (s : String) : String := String.mk (s.data.map Char.toUpper)

/-- Python `str.lower()` (ASCII case mapping). -/
def py_lower (s : String) : String := String.mk (s.data.map Char.toLower)

/-- Python `str.strip()`: remove leading and trailing whitespace. -/
def py_strip (s : String) : String :=
  String.mk (((s.data.dropWhile Char.isWhitespace).reverse.dropWhile Char.isWhitespace).reverse)

/-- Helper for `py_split`: split a character list at every occurrence of `c`,
`acc` holding the (reversed) current segment. -/
def splitCharAux (c : Char) : List Char → List Char → List (List Char)
  | [], acc => [acc.reverse]
  | x :: xs, acc =>
    if x = c then acc.reverse :: splitCharAux c xs []
    else splitCharAux c xs (x :: acc)

/-- Python `s.split(c)` for a one-character separator (the source only ever
splits on `'_'`). -/
def py_split (c : Char) (s : String) : List String :=
  (splitCharAux c s.data []).map String.mk

/-- Python `s.startswith(pre)`. -/
def py_startswith (s pre : String) : Bool :=
  s.data.take pre.data.length == pre.data

/-- Python `s.endswith(suf)`. -/
def py_endswith (s suf : String) : Bool :=
  suf.data.length ≤ s.data.length && s.data.drop (s.data.length - suf.data.length) == suf.data

/-- `sub in s` for Python strings: `pat` occurs as a contiguous substring. -/
def contains_sub (pat : List Char) : List Char → Bool
  | [] => pat == []
  | x :: rest => ((x :: rest).take pat.length == pat) || contains_sub pat rest

/-- Python `sub in s` on strings. -/
def py_contains (s sub : String) : Bool := contains_sub sub.data s.data

/-- pandas `Series.astype(str)` applied to one cell: a null cell renders as
the literal string `"nan"`, any other cell as its string form. -/
def astype_str (v : Option String) : String :=
  match v with
  | some s => s
  | none => "nan"

/-- pandas `Series.fillna(d)` applied to one cell. -/
def fillna (v : Option String) (d : String) : String :=
  match v with
  | some s => s
  | none => d

/-! ## `LookupProcessor.perform_lookup` (src/src/data_handlers/lookup_processor.py)

An input row contributes its `PN` and `Project` cells to the composite key;
a Master BOM row contributes its part-number cell and the cell of the
selected project column (`master_project_col`, which is also the column the
looked-up status value is read from). -/

/-- One row of the cleaned input table, restricted to the cells
`perform_lookup` reads. -/
structure InputRow where
  pn : Option String
  project : Option String
deriving DecidableEq

/-- One row of the Master BOM, restricted to the cells `perform_lookup`
reads: the part-number cell and the cell of the selected project column. -/
structure MasterRow where
  pn : Option String
  projectVal : Option String
deriving DecidableEq

/-- `input_lookup_key = input_df['PN'].astype(str) + '|' + input_df['Project'].astype(str)`. -/
def input_lookup_key (r : InputRow) : String :=
  astype_str r.pn ++ "|" ++ astype_str r.project

/-- `master_lookup_key = master_bom[master_pn_col].astype(str) + '|' +
master_bom[master_project_col].astype(str)`. -/
def master_lookup_key (r : MasterRow) : String :=
  astype_str r.pn ++ "|" ++ astype_str r.projectVal

/-- `master_bom_with_key.drop_duplicates(subset=['lookup_key'], keep='first')`:
keep the first row carrying each composite key, preserving order; `seen`
accumulates the keys already kept. -/
def drop_duplicates_first : List MasterRow → List String → List MasterRow
  | [], _ => []
  | r :: rest, seen =>
    if master_lookup_key r ∈ seen then drop_duplicates_first rest seen
    else r :: drop_duplicates_first rest (master_lookup_key r :: seen)

/-- The lookup dictionary built from the deduplicated Master BOM:
`lookup_series = master_clean[lookup_col].fillna("0")` and
`lookup_dict = pd.Series(lookup_series.values, index=master_clean['lookup_key']).to_dict()`.
`lookup_dict_get master k` is `lookup_dict.get(k)`; after deduplication each
key occurs once, so the dictionary entry is the first row with that key. -/
def lookup_dict_get (master : List MasterRow) (k : String) : Option String :=
  ((drop_duplicates_first master []).find? (fun r => master_lookup_key r == k)).map
    (fun r => fillna r.projectVal "0")

/-- `status_mapping = input_lookup_key.map(lookup_dict)` for one input row:
`none` models the NaN produced for a key absent from the dictionary. -/
def status_mapping (master : List MasterRow) (r : InputRow) : Option String :=
  lookup_dict_get master (input_lookup_key r)

/-- `mapped_count = status_mapping.notna().sum()`, stored in
`processing_stats['lookup_matches']`. -/
def lookup_matches (master : List MasterRow) (input : List InputRow) : Nat :=
  (input.map (status_mapping master)).countP (fun v => v.isSome)

/-- `unmapped_count = status_mapping.isna().sum()`, stored in
`processing_stats['lookup_misses']`. -/
def lookup_misses (master : List MasterRow) (input : List InputRow) : Nat :=
  (input.map (status_mapping master)).countP (fun v => v.isNone)

/-- Whether a composite key is present in the lookup dictionary at all. -/
def key_found (master : List MasterRow) (k : String) : Bool :=
  ((drop_duplicates_first master []).find? (fun r => master_lookup_key r == k)).isSome

/-! ## `LookupProcessor.process_lookup_results` and its status handlers -/

/-- One row of the lookup-result table, restricted to the fields the
classification step reads or writes (`Price`, `Description`, `Supplier`
pass through unchanged and are omitted). -/
structure ProcRow where
  pn : Option String
  project : Option String
  status : Option String
  notes : String
  action : String
  lookup_key : String
deriving DecidableEq

/-- One row of the Master BOM as seen by the classification step: its
composite `lookup_key` column and its `Status` column (the column
`_handle_status_d` assigns through `master_bom.loc[mask, 'Status'] = 'X'`). -/
structure BomRow where
  lookup_key : String
  status : Option String
deriving DecidableEq

/-- The row `perform_lookup` produces for one input row: the `Status` cell
comes from `status_mapping`, `Notes`/`Action` are initialised to `''` by
`_add_processing_columns`, and the `lookup_key` column is kept. -/
def perform_lookup_row (master : List MasterRow) (r : InputRow) : ProcRow :=
  { pn := r.pn, project := r.project, status := status_mapping master r,
    notes := "", action := "", lookup_key := input_lookup_key r }

/-- `_handle_status_d`: if any Master BOM row carries the row's lookup key,
set `Status = 'X'` on every such row (via `master_bom.loc[mask, 'Status']`)
and tag the current row `Action = 'Updated'`; otherwise do nothing. -/
def handle_status_d (row : ProcRow) (master : List BomRow) : ProcRow × List BomRow :=
  if master.any (fun m => m.lookup_key == row.lookup_key) then
    ({ row with notes := "Status D mis à jour vers X", action := "Updated" },
     master.map (fun m =>
       if m.lookup_key == row.lookup_key then { m with status := some "X" } else m))
  else (row, master)

/-- `_handle_status_0`: the synthetic row appended for a duplicate /
uncertain match. -/
def handle_status_0 (row : ProcRow) : ProcRow :=
  { pn := row.pn, project := row.project, status := some "0",
    notes := "Doublon ou correspondance incertaine - vérification manuelle nécessaire",
    action := "Duplicate_Added", lookup_key := row.lookup_key }

/-- `_handle_status_nan`: the synthetic row appended for an unknown
component (its `Status` stays NaN). -/
def handle_status_nan (row : ProcRow) : ProcRow :=
  { pn := row.pn, project := row.project, status := none,
    notes := "PN inconnu – entrée potentiellement nouvelle",
    action := "Unknown_Added", lookup_key := row.lookup_key }

/-- `_handle_status_x`: tag the row in place, no synthetic row, no catalog
write. -/
def handle_status_x (row : ProcRow) : ProcRow :=
  { row with notes := "Composant déjà marqué comme ancien - ignoré",
             action := "Skipped" }

/-- `_handle_other_status`: `'A'` (any case) is tagged `No_Action`, every
other unrecognised value `Unknown_Status`. -/
def handle_other_status (row : ProcRow) (s : String) : ProcRow :=
  if py_upper s == "A" then
    { row with notes := "Composant actif - aucune action requise", action := "No_Action" }
  else
    { row with notes := "Statut non reconnu: " ++ s, action := "Unknown_Status" }

/-- `_process_single_row`: dispatch on the row's resolved `Status` value.
Returns the (possibly annotated) row, the synthetic rows it appended to
`self.additional_rows`, and the Master BOM after any `D` rewrite. -/
def process_single_row (row : ProcRow) (master : List BomRow) :
    ProcRow × List ProcRow × List BomRow :=
  match row.status with
  | none => (row, [handle_status_nan row], master)
  | some s =>
    if py_upper s == "D" then
      let rm := handle_status_d row master
      (rm.1, [], rm.2)
    else if s == "0" then (row, [handle_status_0 row], master)
    else if py_upper s == "X" then (handle_status_x row, [], master)
    else (handle_other_status row s, [], master)

/-- The `for idx, row in df.iterrows()` loop of `process_lookup_results`:
rows are visited in order, the Master BOM is threaded through, and the
synthetic rows are accumulated in visit order. -/
def process_rows : List ProcRow → List BomRow →
    List ProcRow × List ProcRow × List BomRow
  | [], master => ([], [], master)
  | row :: rest, master =>
    let step := process_single_row row master
    let recur := process_rows rest step.2.2
    (step.1 :: recur.1, step.2.1 ++ recur.2.1, recur.2.2)

/-- `process_lookup_results`: after the loop, the additional rows are
concatenated after all original rows (`pd.concat([df, additional_df])`),
and the function returns `(df, master_bom)`. -/
def process_lookup_results (df : List ProcRow) (master : List BomRow) :
    List ProcRow × List BomRow :=
  let r := process_rows df master
  (r.1 ++ r.2.1, r.2.2)

/-- The catalog object the caller still holds after `process_lookup_results`
returns.  In the source, `_handle_status_d` writes through
`master_bom.loc[mask, 'Status'] = 'X'`, i.e. it assigns into the very
DataFrame the caller passed in (no copy is taken anywhere on this path),
and `process_lookup_results` returns that same object as its second
component.  The caller's catalog after the call is therefore exactly the
second component of `process_lookup_results`. -/
def caller_master_bom_after (df : List ProcRow) (master : List BomRow) : List BomRow :=
  (process_lookup_results df master).2

/-- Number of input rows the run routes into the Duplicate branch
(`Status == '0'`). -/
def count_duplicate_rows (df : List ProcRow) : Nat :=
  df.countP (fun r => r.status == some "0")

/-- Number of input rows the run routes into the Unknown branch
(`Status` null). -/
def count_unknown_rows (df : List ProcRow) : Nat :=
  df.countP (fun r => r.status.isNone)

/-! ## `EnhancedLookupProcessor` (src/enhanced_lookup_processor.py)

`suggest_column` scores candidates with
`SequenceMatcher(None, input_name.lower(), col.lower()).ratio()`.  Per the
spec the exact similarity algorithm is an implementation detail behind a
`similarityRatio(a, b) -> float` interface, and no claim depends on its
values, so the embedding takes the ratio function as an explicit
parameter. -/

/-- One iteration of the fallback loop of `suggest_column`:
`if score > best_score: best, best_score = col, score`. -/
def sc_fallback_step (ratio : String → String → ℚ) (input_name : String) :
    String × ℚ → String → String × ℚ := fun best col =>
  if ratio (py_lower input_name) (py_lower col) > best.2 then
    (col, ratio (py_lower input_name) (py_lower col))
  else best

/-- The fallback loop of `suggest_column`: score *all* candidates by the
similarity ratio with no threshold, first maximum wins, starting from
`best, best_score = input_name, 0`. -/
def sc_fallback (ratio : String → String → ℚ) (input_name : String)
    (columns : List String) : String × ℚ :=
  columns.foldl (sc_fallback_step ratio input_name) (input_name, 0)

/-- One iteration of the first loop of `suggest_column`: only a candidate
whose uppercased value starts with `pre` and ends with `suf` is scored, and
it is accepted only when its ratio reaches the 0.90 threshold and beats the
best so far. -/
def sc_presuf_step (ratio : String → String → ℚ) (input_name pre suf : String) :
    String × ℚ → String → String × ℚ := fun best col =>
  if py_startswith (py_upper col) (py_upper pre) && py_endswith (py_upper col) (py_upper suf) then
    if ratio (py_lower input_name) (py_lower col) ≥ 9/10
        ∧ ratio (py_lower input_name) (py_lower col) > best.2 then
      (col, ratio (py_lower input_name) (py_lower col))
    else best
  else best

/-- The first loop of `suggest_column`, starting from
`best, best_score = input_name, 0`. -/
def sc_presuf_pass (ratio : String → String → ℚ) (input_name pre suf : String)
    (columns : List String) : String × ℚ :=
  columns.foldl (sc_presuf_step ratio input_name pre suf) (input_name, 0)

/-- `EnhancedLookupProcessor.suggest_column`.  An empty (after `strip`)
input name returns the first candidate with confidence 0; a hint with at
least 4 `_`-separated segments first tries the prefix/suffix pass
(`prefix = parts[:3]` joined by `_`, `suffix = parts[-1]`) and falls back
to the general similarity search when that pass scored nothing. -/
def suggest_column (ratio : String → String → ℚ) (input_name : String)
    (columns : List String) : String × ℚ :=
  if py_strip input_name = "" then (columns.headD "", 0)
  else if 4 ≤ (py_split '_' input_name).length then
    let b1 := sc_presuf_pass ratio input_name
      (String.intercalate "_" ((py_split '_' input_name).take 3))
      ((py_split '_' input_name).getLastD "") columns
    if b1.2 > 0 then b1 else sc_fallback ratio input_name columns
  else sc_fallback ratio input_name columns

/-- One column of the master DataFrame: its header and its cells. -/
structure PCol where
  name : String
  values : List (Option String)
deriving DecidableEq

/-- The master DataFrame, column-wise.  `nrows` is `len(master_df)` (in
pandas every column has exactly this many cells). -/
structure MasterDF where
  nrows : Nat
  cols : List PCol
deriving DecidableEq

/-- `get_column_suggestions(master_df, start_col=1, end_col=22)`:
`columns[1:min(22, len(columns))]`. -/
def get_column_suggestions (df : MasterDF) : List PCol :=
  (df.cols.drop 1).take 21

/-- `non_null_count = master_df[col].notna().sum()`. -/
def fill_count (c : PCol) : Nat :=
  c.values.countP (fun v => v.isSome)

/-- Round `a / b` to the nearest integer, ties to even — the rounding mode
of Python's `round`.  (The source computes
`round((non_null_count / total_count) * 100, 1)` in floating point; the
embedding works with the exact rational, in tenths of a percent.) -/
def round_half_even (a b : Nat) : Nat :=
  let q := a / b
  let r := a % b
  if 2 * r < b then q
  else if b < 2 * r then q + 1
  else if q % 2 = 0 then q else q + 1

/-- `fill_percentage = round((non_null_count / total_count) * 100, 1)`,
expressed in tenths of a percent so it stays a natural number. -/
def fill_pct_tenths (df : MasterDF) (c : PCol) : Nat :=
  round_half_even (fill_count c * 1000) df.nrows

/-- `is_project_column`: `"V710" in col.upper() or "J74" in col.upper()`.
(A name test — not a test on the column's values.) -/
def is_project_column_flag (name : String) : Bool :=
  py_contains (py_upper name) "V710" || py_contains (py_upper name) "J74"

/-- Stable descending insertion for `sort_desc_by`. -/
def insort_desc {α : Type} (key : α → Nat) (x : α) : List α → List α
  | [] => [x]
  | y :: ys =>
    if key x < key y then y :: insort_desc key x ys
    else x :: y :: ys

/-- `list.sort(key=..., reverse=True)`: Python's sort is stable, and a
stable sort is uniquely determined by the key order, so this structural
stable insertion sort computes exactly the same list. -/
def sort_desc_by {α : Type} (key : α → Nat) : List α → List α
  | [] => []
  | x :: xs => insort_desc key x (sort_desc_by key xs)

/-- `analyze_project_columns`: the analysed columns (`columns[1:22]`),
sorted by `fill_percentage` descending (stable).  The per-column record of
the source carries `name`, `fill_count`, `total_count`, `fill_percentage`
and `is_project_column`; all of these are recomputable from the `PCol`, so
the embedding keeps the sorted columns themselves. -/
def columns_analysis (df : MasterDF) : List PCol :=
  sort_desc_by (fill_pct_tenths df) (get_column_suggestions df)

/-- `find_best_project_column`: with a non-empty hint, delegate to
`suggest_column` over the analysed column names; with an empty hint, take
the first (highest-fill) analysed column, with
`confidence = fill_percentage / 100`.  (The source also returns the
analysis itself; it is `columns_analysis df`.) -/
def find_best_project_column (ratio : String → String → ℚ) (df : MasterDF)
    (hint : String) : String × ℚ :=
  if hint ≠ "" then
    suggest_column ratio hint ((columns_analysis df).map PCol.name)
  else
    match columns_analysis df with
    | [] => ("", 0)
    | c :: _ => (c.name, (fill_pct_tenths df c : ℚ) / 1000)

/-- The spec's notion of a status-like column, stated from the spec's own
words for comparison with the code: a column "flagged as status-like
(value set intersects `{A,D,X,0}`)". -/
def status_like_spec (c : PCol) : Bool :=
  c.values.any (fun v => v == some "A" || v == some "D" || v == some "X" || v == some "0")

/-- Input table for the C6 counterexample: one row classified Deprecated
with key `"K"`. -/
def c6_df : List ProcRow :=
  [{ pn := some "p", project := some "q", status := some "D",
     notes := "", action := "", lookup_key := "K" }]

/-- Catalog for the C6 counterexample: two rows with key `"K"`, the second
with status `'A'`, not `'D'`. -/
def c6_master : List BomRow := [⟨"K", some "D"⟩, ⟨"K", some "A"⟩]

/-- Input table for the C5 counterexample. -/
def c5_df : List ProcRow :=
  [{ pn := some "p", project := some "q", status := some "D",
     notes := "", action := "", lookup_key := "J" }]

/-- Catalog for the C5 counterexample. -/
def c5_master : List BomRow := [⟨"J", some "D"⟩]

/-- Columns for the C7 counterexample catalog. -/
def c7_pn_col : PCol := { name := "PN", values := [some "p1", some "p2"] }

/-- A fully filled, non-status-like column. -/
def c7_c1 : PCol := { name := "C1", values := [some "foo", some "bar"] }

/-- A half-filled, status-like column (its value set contains `"A"`). -/
def c7_c2 : PCol := { name := "C2", values := [some "A", none] }

/-- The C7 counterexample catalog: 2 rows, columns `[PN, C1, C2]`. -/
def c7_df : MasterDF := { nrows := 2, cols := [c7_pn_col, c7_c1, c7_c2] }

/-- A small catalog for the C7 witness. -/
def c7w_df : MasterDF :=
  { nrows := 1, cols := [{ name := "PN", values := [some "x"] },
                         { name := "B", values := [some "A"] }] }

/-! ## Helper lemmas -/

/-- Deduplication drops every row whose key was already seen. -/
theorem find_drop_duplicates_of_seen (l : List MasterRow) :
    ∀ (seen : List String) (k : String), k ∈ seen →
      (drop_duplicates_first l seen).find? (fun r => master_lookup_key r == k) = none := by
  induction l with
  | nil => intro seen k _; rfl
  | cons r rest ih =>
    intro seen k hk
    unfold drop_duplicates_first
    by_cases hm : master_lookup_key r ∈ seen
    · rw [if_pos hm]; exact ih seen k hk
    · rw [if_neg hm]
      have hne : (master_lookup_key r == k) = false := by
        simp only [beq_eq_false_iff_ne, ne_eq]
        intro he; exact hm (he ▸ hk)
      simp only [List.find?_cons, hne]
      exact ih _ k (List.mem_cons_of_mem _ hk)

/-- On keys not yet seen, looking a key up in the deduplicated catalog is the
same as finding the first row with that key in the original catalog. -/
theorem find_drop_duplicates (l : List MasterRow) :
    ∀ (seen : List String) (k : String), k ∉ seen →
      (drop_duplicates_first l seen).find? (fun r => master_lookup_key r == k)
        = l.find? (fun r => master_lookup_key r == k) := by
  induction l with
  | nil => intro seen k _; rfl
  | cons r rest ih =>
    intro seen k hk
    unfold drop_duplicates_first
    by_cases hm : master_lookup_key r ∈ seen
    · rw [if_pos hm]
      have hne : (master_lookup_key r == k) = false := by
        simp only [beq_eq_false_iff_ne, ne_eq]
        intro he; exact hk (he ▸ hm)
      rw [List.find?_cons, hne]
      exact ih seen k hk
    · rw [if_neg hm]
      by_cases he : (master_lookup_key r == k) = true
      · simp only [List.find?_cons, he]
      · have he2 : (master_lookup_key r == k) = false := by
          simpa using he
        simp only [List.find?_cons, he2]
        have hk2 : k ∉ master_lookup_key r :: seen := by
          intro hmem
          rcases List.mem_cons.mp hmem with h1 | h1
          · exact he (by simp [h1])
          · exact hk h1
        exact ih _ k hk2

/-- A list mapped to itself is fixed pointwise. -/
theorem list_map_eq_self {α : Type} {f : α → α} :
    ∀ {l : List α}, l.map f = l → ∀ x ∈ l, f x = x := by
  intro l
  induction l with
  | nil => intro _ x hx; cases hx
  | cons a t ih =>
    intro h x hx
    rw [List.map_cons, List.cons_eq_cons] at h
    rcases List.mem_cons.mp hx with rfl | hx
    · exact h.1
    · exact ih h.2 x hx

/-- How many synthetic rows one row's classification appends. -/
theorem process_single_row_additional_length (row : ProcRow) (master : List BomRow) :
    (process_single_row row master).2.1.length
      = ((if row.status == some "0" then 1 else 0) + (if row.status.isNone then 1 else 0)) := by
  unfold process_single_row
  cases hst : row.status with
  | none => simp
  | some s =>
    by_cases h1 : (py_upper s == "D") = true
    · have hs0 : ¬ s = "0" := by
        intro h; subst h; exact absurd h1 (by decide)
      simp [h1, hs0]
    · by_cases h2 : (s == "0") = true
      · simp [h1, h2]
      · by_cases h3 : (py_upper s == "X") = true <;>
          simp [h1, h2, h3, handle_status_x, handle_other_status]

/-- Lengths through the classification loop: one output row per input row,
and one synthetic row per Duplicate- or Unknown-classified row. -/
theorem process_rows_lengths (df : List ProcRow) :
    ∀ master : List BomRow,
      (process_rows df master).1.length = df.length
      ∧ (process_rows df master).2.1.length
          = count_duplicate_rows df + count_unknown_rows df := by
  induction df with
  | nil => intro master; simp [process_rows, count_duplicate_rows, count_unknown_rows]
  | cons row rest ih =>
    intro master
    have hstep := process_single_row_additional_length row master
    unfold process_rows
    constructor
    · simp [(ih _).1]
    · simp only [List.length_append, (ih _).2, hstep,
        count_duplicate_rows, count_unknown_rows, List.countP_cons]
      by_cases h0 : (row.status == some "0") = true <;>
        by_cases hn : row.status.isNone = true <;> simp [h0, hn] <;> omega

/-! ## Claims -/

/-- C4: for every run, the output table has exactly one row per input row
plus one synthetic row per Duplicate-classified row plus one synthetic row
per Unknown-classified row. -/
theorem c4_row_count_invariant (df : List ProcRow) (master : List BomRow) :
    (process_lookup_results df master).1.length
      = df.length + count_duplicate_rows df + count_unknown_rows df := by
  unfold process_lookup_results
  have h := process_rows_lengths df master
  simp [h.1, h.2]
  omega

/-- C2: looking up a composite key returns the value of the first catalog
row carrying that key, in catalog order, no matter how many rows with the
same key follow it (the catalog is deduplicated with `keep='first'`);
duplicate keys are handled, never an error. -/
theorem c2_first_match_wins (master : List MasterRow) (r : InputRow) (m0 : MasterRow)
    (h : master.find? (fun m => master_lookup_key m == input_lookup_key r) = some m0) :
    status_mapping master r = some (fillna m0.projectVal "0") := by
  unfold status_mapping lookup_dict_get
  rw [find_drop_duplicates master [] _ (by simp), h]
  rfl

/-- Witness for C2: a catalog whose first two rows share a composite key;
the lookup returns the first row's status. -/
theorem c2_first_match_wins_witness :
    ([⟨some "P", some "D"⟩, ⟨some "P", some "D"⟩] : List MasterRow).find?
        (fun m => master_lookup_key m == input_lookup_key ⟨some "P", some "D"⟩)
      = some ⟨some "P", some "D"⟩
    ∧ status_mapping [⟨some "P", some "D"⟩, ⟨some "P", some "D"⟩] ⟨some "P", some "D"⟩
      = some "D" :=
  ⟨by decide, c2_first_match_wins _ _ ⟨some "P", some "D"⟩ (by decide)⟩

/-- C3: a catalog row whose selected project-column cell is null yields the
stored sentinel `"0"`, so an input row hitting that key resolves to status
`"0"` and its classification takes the Duplicate branch
(`Action = 'Duplicate_Added'`), not the Unknown branch. -/
theorem c3_null_project_value_sentinel (master : List MasterRow) (r : InputRow)
    (m0 : MasterRow)
    (h : master.find? (fun m => master_lookup_key m == input_lookup_key r) = some m0)
    (hnull : m0.projectVal = none) :
    status_mapping master r = some "0"
    ∧ ∀ bom : List BomRow,
        (process_single_row (perform_lookup_row master r) bom).2.1.map ProcRow.action
          = ["Duplicate_Added"] := by
  have h0 : status_mapping master r = some "0" := by
    have := c2_first_match_wins master r m0 h
    rw [hnull] at this
    exact this
  refine ⟨h0, fun bom => ?_⟩
  unfold process_single_row perform_lookup_row
  simp only [h0]
  have h1 : (py_upper "0" == "D") = false := by decide
  have h2 : ("0" == "0") = true := by decide
  simp [h1, h2, handle_status_0]

/-- Witness for C3: catalog `[⟨PN="P", project-cell=null⟩]`, input row with
the matching key `"P|nan"`. -/
theorem c3_null_project_value_sentinel_witness :
    status_mapping [⟨some "P", none⟩] ⟨some "P", none⟩ = some "0"
    ∧ (process_single_row (perform_lookup_row [⟨some "P", none⟩] ⟨some "P", none⟩)
          []).2.1.map ProcRow.action = ["Duplicate_Added"] :=
  ⟨(c3_null_project_value_sentinel [⟨some "P", none⟩] ⟨some "P", none⟩
      ⟨some "P", none⟩ (by decide) rfl).1,
   (c3_null_project_value_sentinel [⟨some "P", none⟩] ⟨some "P", none⟩
      ⟨some "P", none⟩ (by decide) rfl).2 []⟩

/-- C9: the recorded match count plus the recorded miss count equals the
number of input rows, and a row is a match exactly when its composite key
is present in the lookup dictionary. -/
theorem c9_match_miss_partition (master : List MasterRow) (input : List InputRow) :
    lookup_matches master input + lookup_misses master input = input.length
    ∧ lookup_matches master input
        = input.countP (fun r => key_found master (input_lookup_key r)) := by
  constructor
  · unfold lookup_matches lookup_misses
    have hfun : (fun v : Option String => v.isNone)
        = fun v : Option String => !v.isSome := by
      funext v; cases v <;> rfl
    rw [hfun]
    have := List.length_eq_countP_add_countP (fun v : Option String => v.isSome)
      (input.map (status_mapping master))
    simp only [List.length_map] at this
    rw [show (fun v : Option String => !v.isSome)
          = (fun v : Option String => decide ¬v.isSome = true) from
        funext fun v => by cases v <;> rfl]
    omega
  · unfold lookup_matches
    rw [List.countP_map]
    have hfun2 : ((fun v : Option String => v.isSome) ∘ (status_mapping master))
        = fun r => key_found master (input_lookup_key r) := by
      funext r
      simp only [Function.comp_apply]
      unfold status_mapping lookup_dict_get key_found
      cases (drop_duplicates_first master []).find?
          (fun m => master_lookup_key m == input_lookup_key r) <;> rfl
    rw [hfun2]

/-- C10: a non-empty hint with an empty candidate list returns the hint
itself with confidence 0 — the returned column is not drawn from the
candidate list. -/
theorem c10_empty_candidate_list (ratio : String → String → ℚ) (hint : String)
    (h : py_strip hint ≠ "") :
    suggest_column ratio hint [] = (hint, 0) := by
  unfold suggest_column
  rw [if_neg h]
  by_cases h4 : 4 ≤ (py_split '_' hint).length
  · rw [if_pos h4]
    simp [sc_presuf_pass, sc_fallback]
  · rw [if_neg h4]
    simp [sc_fallback]

/-- Witness for C10 at the hint `"PN"`. -/
theorem c10_empty_candidate_list_witness :
    py_strip "PN" ≠ "" ∧ suggest_column (fun _ _ => (0 : ℚ)) "PN" [] = ("PN", 0) :=
  ⟨by decide, c10_empty_candidate_list (fun _ _ => (0 : ℚ)) "PN" (by decide)⟩

/-- C1: classification routes on the resolved `Status` value to exactly one
of the five branches: `'D'`/`'d'` → Deprecated (`Action = 'Updated'`, no
synthetic row), `'0'` → Duplicate (one synthetic row, `Action =
'Duplicate_Added'`, original row untouched), null → Unknown (one synthetic
row, `Action = 'Unknown_Added'`, original row untouched), `'X'`/`'x'` →
Obsolete (`Action = 'Skipped'`), `'A'` → Other (`Action = 'No_Action'`),
any other value such as `'weird'` → `Action = 'Unknown_Status'`.  The
Deprecated tag presupposes the row's key occurs in the Master BOM, which
holds for every status produced by `perform_lookup` from that BOM. -/
theorem c1_status_routing (row : ProcRow) (master : List BomRow)
    (hk : master.any (fun m => m.lookup_key == row.lookup_key) = true) :
    (∀ s, (s = "D" ∨ s = "d") →
        (process_single_row { row with status := some s } master).1.action = "Updated"
      ∧ (process_single_row { row with status := some s } master).2.1 = [])
  ∧ ((process_single_row { row with status := some "0" } master).2.1.map ProcRow.action
        = ["Duplicate_Added"]
      ∧ (process_single_row { row with status := some "0" } master).1
        = { row with status := some "0" })
  ∧ ((process_single_row { row with status := none } master).2.1.map ProcRow.action
        = ["Unknown_Added"]
      ∧ (process_single_row { row with status := none } master).1
        = { row with status := none })
  ∧ (∀ s, (s = "X" ∨ s = "x") →
        (process_single_row { row with status := some s } master).1.action = "Skipped"
      ∧ (process_single_row { row with status := some s } master).2.1 = [])
  ∧ ((process_single_row { row with status := some "A" } master).1.action = "No_Action"
      ∧ (process_single_row { row with status := some "A" } master).2.1 = [])
  ∧ ((process_single_row { row with status := some "weird" } master).1.action
        = "Unknown_Status"
      ∧ (process_single_row { row with status := some "weird" } master).2.1 = []) := by
  have hk2 : master.any (fun m =>
      m.lookup_key == ({ row with status := some "D" } : ProcRow).lookup_key) = true := hk
  refine ⟨?_, ?_, ?_, ?_, ?_, ?_⟩
  · rintro s (rfl | rfl) <;>
      simp [process_single_row, handle_status_d, hk,
        show (py_upper "D" == "D") = true from by decide,
        show (py_upper "d" == "D") = true from by decide]
  · simp [process_single_row, handle_status_0,
      show (py_upper "0" == "D") = false from by decide,
      show ("0" == "0") = true from by decide]
  · simp [process_single_row, handle_status_nan]
  · rintro s (rfl | rfl) <;>
      simp [process_single_row, handle_status_x,
        show (py_upper "X" == "D") = false from by decide,
        show ("X" == "0") = false from by decide,
        show (py_upper "X" == "X") = true from by decide,
        show (py_upper "x" == "D") = false from by decide,
        show ("x" == "0") = false from by decide,
        show (py_upper "x" == "X") = true from by decide]
  · simp [process_single_row, handle_other_status,
      show (py_upper "A" == "D") = false from by decide,
      show ("A" == "0") = false from by decide,
      show (py_upper "A" == "X") = false from by decide,
      show (py_upper "A" == "A") = true from by decide]
  · simp [process_single_row, handle_other_status,
      show (py_upper "weird" == "D") = false from by decide,
      show ("weird" == "0") = false from by decide,
      show (py_upper "weird" == "X") = false from by decide,
      show (py_upper "weird" == "A") = false from by decide]

/-- Witness for C1: a concrete row and a Master BOM containing its key. -/
theorem c1_status_routing_witness :
    (process_single_row
        { pn := some "p", project := some "q", status := some "d",
          notes := "", action := "", lookup_key := "K" } [⟨"K", some "D"⟩]).1.action
      = "Updated"
    ∧ (process_single_row
        { pn := some "p", project := some "q", status := some "weird",
          notes := "", action := "", lookup_key := "K" } [⟨"K", some "D"⟩]).1.action
      = "Unknown_Status" := by
  have h := c1_status_routing
    { pn := some "p", project := some "q", status := some "A",
      notes := "", action := "", lookup_key := "K" } [⟨"K", some "D"⟩] (by decide)
  exact ⟨(h.1 "d" (Or.inr rfl)).1, h.2.2.2.2.2.1⟩

/-- Branch equation: a null status takes the Unknown branch. -/
theorem psr_eq_none (row : ProcRow) (master : List BomRow) (h : row.status = none) :
    process_single_row row master = (row, [handle_status_nan row], master) := by
  unfold process_single_row
  rw [h]

/-- Branch equation: status `'D'`/`'d'` takes the Deprecated branch. -/
theorem psr_eq_d (row : ProcRow) (master : List BomRow) (s : String)
    (h : row.status = some s) (hD : (py_upper s == "D") = true) :
    process_single_row row master
      = ((handle_status_d row master).1, [], (handle_status_d row master).2) := by
  unfold process_single_row
  rw [h]
  simp only []
  rw [if_pos hD]

/-- Branch equation: status `'0'` takes the Duplicate branch. -/
theorem psr_eq_0 (row : ProcRow) (master : List BomRow) (s : String)
    (h : row.status = some s) (hD : (py_upper s == "D") = false)
    (h0 : (s == "0") = true) :
    process_single_row row master = (row, [handle_status_0 row], master) := by
  unfold process_single_row
  rw [h]
  simp only []
  rw [if_neg (by simp [hD]), if_pos h0]

/-- Branch equation: status `'X'`/`'x'` takes the Obsolete branch. -/
theorem psr_eq_x (row : ProcRow) (master : List BomRow) (s : String)
    (h : row.status = some s) (hD : (py_upper s == "D") = false)
    (h0 : (s == "0") = false) (hX : (py_upper s == "X") = true) :
    process_single_row row master = (handle_status_x row, [], master) := by
  unfold process_single_row
  rw [h]
  simp only []
  rw [if_neg (by simp [hD]), if_neg (by simp [h0]), if_pos hX]

/-- Branch equation: any other status takes the Other branch. -/
theorem psr_eq_other (row : ProcRow) (master : List BomRow) (s : String)
    (h : row.status = some s) (hD : (py_upper s == "D") = false)
    (h0 : (s == "0") = false) (hX : (py_upper s == "X") = false) :
    process_single_row row master = (handle_other_status row s, [], master) := by
  unfold process_single_row
  rw [h]
  simp only []
  rw [if_neg (by simp [hD]), if_neg (by simp [h0]), if_neg (by simp [hX])]

/-- Branch equation for `_handle_status_d` when the key occurs in the BOM. -/
theorem hsd_eq_pos (row : ProcRow) (master : List BomRow)
    (hany : master.any (fun m => m.lookup_key == row.lookup_key) = true) :
    handle_status_d row master
      = ({ row with notes := "Status D mis à jour vers X", action := "Updated" },
         master.map (fun m =>
           if m.lookup_key == row.lookup_key then { m with status := some "X" } else m)) := by
  unfold handle_status_d
  rw [if_pos hany]

/-- Branch equation for `_handle_status_d` when the key is absent. -/
theorem hsd_eq_neg (row : ProcRow) (master : List BomRow)
    (hany : master.any (fun m => m.lookup_key == row.lookup_key) = false) :
    handle_status_d row master = (row, master) := by
  unfold handle_status_d
  rw [if_neg (by simp [hany])]

/-- Effect of one row's classification on the Master BOM: the catalog keeps
its length, and each catalog row is either untouched or — only when the
processed row's status is `'D'`/`'d'` and its key matches — overwritten
with status `'X'`. -/
theorem process_single_row_master (row : ProcRow) (master : List BomRow) :
    ((process_single_row row master).2.2).length = master.length
    ∧ ∀ (i : Nat) (h1 : i < master.length)
        (h2 : i < ((process_single_row row master).2.2).length),
        (process_single_row row master).2.2[i] = master[i]
        ∨ ((∃ s, row.status = some s ∧ py_upper s = "D")
            ∧ row.lookup_key = master[i].lookup_key
            ∧ (process_single_row row master).2.2[i]
                = { master[i] with status := some "X" }) := by
  cases hst : row.status with
  | none =>
    rw [psr_eq_none row master hst]
    exact ⟨rfl, fun i h1 h2 => Or.inl rfl⟩
  | some s =>
    by_cases hD : (py_upper s == "D") = true
    · rw [psr_eq_d row master s hst hD]
      by_cases hany : master.any (fun m => m.lookup_key == row.lookup_key) = true
      · rw [hsd_eq_pos row master hany]
        simp only []
        refine ⟨List.length_map _ _, fun i h1 h2 => ?_⟩
        simp only [List.getElem_map]
        by_cases hkey : (master[i].lookup_key == row.lookup_key) = true
        · right
          refine ⟨⟨s, hst ▸ rfl, by simpa using hD⟩, (beq_iff_eq.mp hkey).symm, ?_⟩
          rw [if_pos hkey]
        · left
          rw [if_neg hkey]
      · rw [hsd_eq_neg row master (by simpa using hany)]
        exact ⟨rfl, fun i h1 h2 => Or.inl rfl⟩
    · have hD' : (py_upper s == "D") = false := by simpa using hD
      by_cases h0 : (s == "0") = true
      · rw [psr_eq_0 row master s hst hD' h0]
        exact ⟨rfl, fun i h1 h2 => Or.inl rfl⟩
      · by_cases hX : (py_upper s == "X") = true
        · rw [psr_eq_x row master s hst hD' (by simpa using h0) hX]
          exact ⟨rfl, fun i h1 h2 => Or.inl rfl⟩
        · rw [psr_eq_other row master s hst hD' (by simpa using h0) (by simpa using hX)]
          exact ⟨rfl, fun i h1 h2 => Or.inl rfl⟩

/-- Effect of the whole classification loop on the Master BOM: length is
kept, and a catalog row changes only by being overwritten with status `'X'`
by some Deprecated-classified input row whose key matches. -/
theorem process_rows_master (df : List ProcRow) :
    ∀ master : List BomRow,
      ((process_rows df master).2.2).length = master.length
      ∧ ∀ (i : Nat) (h1 : i < master.length)
          (h2 : i < ((process_rows df master).2.2).length),
          (process_rows df master).2.2[i] = master[i]
          ∨ (∃ r ∈ df, (∃ s, r.status = some s ∧ py_upper s = "D")
              ∧ r.lookup_key = master[i].lookup_key
              ∧ (process_rows df master).2.2[i] = { master[i] with status := some "X" }) := by
  induction df with
  | nil => intro master; exact ⟨rfl, fun i h1 h2 => Or.inl rfl⟩
  | cons row rest ih =>
    intro master
    obtain ⟨hlen1, hspec1⟩ := process_single_row_master row master
    obtain ⟨hlen2, hspec2⟩ := ih ((process_single_row row master).2.2)
    refine ⟨?_, fun i h1 h2 => ?_⟩
    · show ((process_rows rest ((process_single_row row master).2.2)).2.2).length
        = master.length
      rw [hlen2, hlen1]
    · have hmid : i < ((process_single_row row master).2.2).length := hlen1 ▸ h1
      have h2' : i < ((process_rows rest ((process_single_row row master).2.2)).2.2).length :=
        h2
      show (process_rows rest ((process_single_row row master).2.2)).2.2[i] = master[i]
        ∨ (∃ r ∈ row :: rest, (∃ s, r.status = some s ∧ py_upper s = "D")
            ∧ r.lookup_key = master[i].lookup_key
            ∧ (process_rows rest ((process_single_row row master).2.2)).2.2[i]
                = { master[i] with status := some "X" })
      rcases hspec2 i hmid h2' with heq2 | ⟨r, hr, hDr, hkeyr, heq2⟩
      · rcases hspec1 i h1 hmid with heq1 | ⟨hD1, hkey1, heq1⟩
        · left
          rw [heq2, heq1]
        · right
          exact ⟨row, List.mem_cons_self _ _, hD1, hkey1, by rw [heq2, heq1]⟩
      · rcases hspec1 i h1 hmid with heq1 | ⟨hD1, hkey1, heq1⟩
        · right
          refine ⟨r, List.mem_cons_of_mem _ hr, hDr, ?_, ?_⟩
          · rw [hkeyr, heq1]
          · rw [heq2, heq1]
        · right
          refine ⟨row, List.mem_cons_self _ _, hD1, hkey1, ?_⟩
          rw [heq2, heq1]

/-- C6 (amended): classifying a row whose status is not `'D'`/`'d'` (in
particular a Duplicate, Unknown or Obsolete row) leaves the catalog
unchanged, and the only catalog rows whose status may change during a run
are those whose lookup key matches a Deprecated-classified input row —
every such row is overwritten with `'X'` whatever its previous status. -/
theorem c6_catalog_only_d_rewrites :
    (∀ (row : ProcRow) (master : List BomRow),
        (∀ s, row.status = some s → py_upper s ≠ "D") →
        (process_single_row row master).2.2 = master)
    ∧ ∀ (df : List ProcRow) (master : List BomRow) (i : Nat)
        (h1 : i < master.length)
        (h2 : i < ((process_lookup_results df master).2).length),
        (process_lookup_results df master).2[i] ≠ master[i] →
        ∃ r ∈ df, (∃ s, r.status = some s ∧ py_upper s = "D")
          ∧ r.lookup_key = master[i].lookup_key
          ∧ (process_lookup_results df master).2[i]
              = { master[i] with status := some "X" } := by
  constructor
  · intro row master hnd
    cases hst : row.status with
    | none => rw [psr_eq_none row master hst]
    | some s =>
      have hD : (py_upper s == "D") = false := by
        simp only [beq_eq_false_iff_ne, ne_eq]
        exact hnd s hst
      by_cases h0 : (s == "0") = true
      · rw [psr_eq_0 row master s hst hD h0]
      · by_cases hX : (py_upper s == "X") = true
        · rw [psr_eq_x row master s hst hD (by simpa using h0) hX]
        · rw [psr_eq_other row master s hst hD (by simpa using h0) (by simpa using hX)]
  · intro df master i h1 h2 hne
    exact ((process_rows_master df master).2 i h1 h2).resolve_left hne



/-- Counterexample to C6 as stated: after the run the second catalog row's
status changed from `'A'` to `'X'` — a row that was *not* rewritten "from
'D' to 'X'" had its status changed, because `_handle_status_d` sets `'X'`
on *every* row matching the key, whatever its previous status. -/
theorem c6_counterexample :
    c6_master = [⟨"K", some "D"⟩, ⟨"K", some "A"⟩]
    ∧ (process_lookup_results c6_df c6_master).2
        = [⟨"K", some "X"⟩, ⟨"K", some "X"⟩] := by
  exact ⟨rfl, by decide⟩

/-- Witness for C6 (amended): classifying a Duplicate row (`Status='0'`)
leaves the catalog unchanged. -/
theorem c6_catalog_only_d_rewrites_witness :
    (process_single_row
        { pn := some "p", project := some "q", status := some "0",
          notes := "", action := "", lookup_key := "Z" } [⟨"Z", some "A"⟩]).2.2
      = [⟨"Z", some "A"⟩] :=
  c6_catalog_only_d_rewrites.1 _ _ (by intro s hs; cases hs; decide)



/-- Counterexample to C5 as stated: the caller's catalog object is *not*
left unchanged — `_handle_status_d` assigns through the caller's DataFrame
and `process_lookup_results` returns that same object, so after a run with
a Deprecated row the caller's catalog differs from the value passed in. -/
theorem c5_counterexample : caller_master_bom_after c5_df c5_master ≠ c5_master := by
  decide

/-- C5 (amended): the classification step mutates the caller's catalog in
place — whenever a Deprecated-classified row's key matches a catalog row
whose status is not already `'X'`, the caller's catalog after the call
differs from the object it passed in (the "updated catalog" output is that
same mutated object, cf. `caller_master_bom_after`). -/
theorem c5_inplace_catalog_mutation (row : ProcRow) (master : List BomRow) (m : BomRow)
    (hst : row.status = some "D") (hm : m ∈ master)
    (hkey : m.lookup_key = row.lookup_key) (hx : m.status ≠ some "X") :
    caller_master_bom_after [row] master ≠ master := by
  have hany : master.any (fun b => b.lookup_key == row.lookup_key) = true :=
    List.any_eq_true.mpr ⟨m, hm, by simp [hkey]⟩
  have hshow : caller_master_bom_after [row] master
      = (process_single_row row master).2.2 := rfl
  rw [hshow, psr_eq_d row master "D" hst (by decide), hsd_eq_pos row master hany]
  simp only []
  intro hcontra
  have hfix := list_map_eq_self hcontra m hm
  simp only [show (m.lookup_key == row.lookup_key) = true from by simp [hkey],
    if_true] at hfix
  have hstatus := congrArg BomRow.status hfix
  simp only [] at hstatus
  exact hx hstatus.symm

/-- Witness for C5 (amended) at a concrete Deprecated row and catalog. -/
theorem c5_inplace_catalog_mutation_witness :
    caller_master_bom_after
        [{ pn := some "w", project := some "v", status := some "D",
           notes := "", action := "", lookup_key := "W" }] [⟨"W", some "A"⟩]
      ≠ [⟨"W", some "A"⟩] :=
  c5_inplace_catalog_mutation _ _ ⟨"W", some "A"⟩ rfl (by decide) rfl (by decide)

/-- `insort_desc` permutes its input. -/
theorem insort_desc_perm {α : Type} (key : α → Nat) (x : α) (l : List α) :
    (insort_desc key x l).Perm (x :: l) := by
  induction l with
  | nil => exact List.Perm.refl _
  | cons y ys ih =>
    unfold insort_desc
    by_cases h : key x < key y
    · rw [if_pos h]
      exact (ih.cons y).trans (List.Perm.swap x y ys)
    · rw [if_neg h]

/-- `insort_desc` preserves descending sortedness. -/
theorem insort_desc_sorted {α : Type} (key : α → Nat) (x : α) (l : List α)
    (hs : l.Pairwise (fun a b => key b ≤ key a)) :
    (insort_desc key x l).Pairwise (fun a b => key b ≤ key a) := by
  induction l with
  | nil => simp [insort_desc]
  | cons y ys ih =>
    unfold insort_desc
    rcases List.pairwise_cons.mp hs with ⟨hy, hys⟩
    by_cases h : key x < key y
    · rw [if_pos h]
      refine List.pairwise_cons.mpr ⟨?_, ih hys⟩
      intro b hb
      rcases List.mem_cons.mp ((insort_desc_perm key x ys).mem_iff.mp hb) with rfl | hb'
      · exact Nat.le_of_lt h
      · exact hy b hb'
    · rw [if_neg h]
      refine List.pairwise_cons.mpr ⟨?_, hs⟩
      intro b hb
      rcases List.mem_cons.mp hb with rfl | hb'
      · exact Nat.le_of_not_lt h
      · exact le_trans (hy b hb') (Nat.le_of_not_lt h)

/-- `sort_desc_by` permutes its input. -/
theorem sort_desc_by_perm {α : Type} (key : α → Nat) (l : List α) :
    (sort_desc_by key l).Perm l := by
  induction l with
  | nil => exact List.Perm.refl _
  | cons x xs ih => exact (insort_desc_perm key x _).trans (ih.cons x)

/-- `sort_desc_by` sorts descending. -/
theorem sort_desc_by_sorted {α : Type} (key : α → Nat) (l : List α) :
    (sort_desc_by key l).Pairwise (fun a b => key b ≤ key a) := by
  induction l with
  | nil => simp [sort_desc_by]
  | cons x xs ih => exact insort_desc_sorted key x _ ih

/-- C7 (amended): with an empty hint on a catalog with at least one row and
at least one analysed column, `find_best_project_column` returns the
analysed column (index window `columns[1:22]`) with the highest fill
percentage — with *no* restriction to status-like columns. -/
theorem c7_best_fill_column (ratio : String → String → ℚ) (df : MasterDF)
    (_hrows : 0 < df.nrows) (hne : get_column_suggestions df ≠ []) :
    ∃ c ∈ get_column_suggestions df,
      (find_best_project_column ratio df "").1 = c.name
      ∧ ∀ cc ∈ get_column_suggestions df,
          fill_pct_tenths df cc ≤ fill_pct_tenths df c := by
  have hperm : (columns_analysis df).Perm (get_column_suggestions df) :=
    sort_desc_by_perm (fill_pct_tenths df) (get_column_suggestions df)
  have hsorted : (columns_analysis df).Pairwise
      (fun a b => fill_pct_tenths df b ≤ fill_pct_tenths df a) :=
    sort_desc_by_sorted (fill_pct_tenths df) (get_column_suggestions df)
  unfold find_best_project_column
  rw [if_neg (by simp)]
  cases hca : columns_analysis df with
  | nil =>
    exfalso
    apply hne
    have hlen := hperm.length_eq
    rw [hca] at hlen
    exact List.eq_nil_of_length_eq_zero (by simpa using hlen.symm)
  | cons c rest =>
    rw [hca] at hperm hsorted
    refine ⟨c, hperm.mem_iff.mp (List.mem_cons_self _ _), rfl, ?_⟩
    intro cc hcc
    rcases List.mem_cons.mp (hperm.mem_iff.mpr hcc) with rfl | hcc2
    · exact le_refl _
    · exact (List.pairwise_cons.mp hsorted).1 cc hcc2

/-- Counterexample to C7 as stated: on `c7_df` the code returns `"C1"`,
which is not status-like under the spec's `{A,D,X,0}` value-set test, even
though the status-like column `"C2"` (with a lower fill percentage) is
available — the code selects the highest-fill analysed column with no
status-like restriction, and its own `is_project_column` flag is a
`V710`/`J74` name test, not a value-set test. -/
theorem c7_counterexample :
    (find_best_project_column (fun _ _ => 0) c7_df "").1 = "C1"
    ∧ status_like_spec c7_c1 = false
    ∧ status_like_spec c7_c2 = true
    ∧ c7_c2 ∈ get_column_suggestions c7_df
    ∧ fill_pct_tenths c7_df c7_c2 < fill_pct_tenths c7_df c7_c1 := by
  refine ⟨?_, by decide, by decide, by decide, by decide⟩
  decide

/-- Witness for C7 (amended) on a concrete 1-row, 2-column catalog. -/
theorem c7_best_fill_column_witness :
    ∃ c ∈ get_column_suggestions c7w_df,
      (find_best_project_column (fun _ _ => 0) c7w_df "").1 = c.name
      ∧ ∀ cc ∈ get_column_suggestions c7w_df,
          fill_pct_tenths c7w_df cc ≤ fill_pct_tenths c7w_df c :=
  c7_best_fill_column (fun _ _ => 0) c7w_df (by decide) (by decide)

/-- Invariant of the prefix/suffix loop: a positive best score can only
come from a candidate, records that candidate's ratio, and is ≥ 0.90. -/
theorem sc_presuf_step_inv (ratio : String → String → ℚ) (i p su : String)
    (S : List String) :
    ∀ (l : List String) (init : String × ℚ),
      (∀ c ∈ l, c ∈ S) →
      (init.2 > 0 → init.1 ∈ S
        ∧ ratio (py_lower i) (py_lower init.1) = init.2 ∧ init.2 ≥ 9/10) →
      ((l.foldl (sc_presuf_step ratio i p su) init).2 > 0 →
        (l.foldl (sc_presuf_step ratio i p su) init).1 ∈ S
        ∧ ratio (py_lower i) (py_lower (l.foldl (sc_presuf_step ratio i p su) init).1)
            = (l.foldl (sc_presuf_step ratio i p su) init).2
        ∧ (l.foldl (sc_presuf_step ratio i p su) init).2 ≥ 9/10) := by
  intro l
  induction l with
  | nil => intro init _ hinit; exact hinit
  | cons c cs ih =>
    intro init hmem hinit
    rw [List.foldl_cons]
    apply ih
    · intro x hx; exact hmem x (List.mem_cons_of_mem _ hx)
    · unfold sc_presuf_step
      by_cases hg : (py_startswith (py_upper c) (py_upper p)
          && py_endswith (py_upper c) (py_upper su)) = true
      · rw [if_pos hg]
        by_cases hsc : ratio (py_lower i) (py_lower c) ≥ 9/10
            ∧ ratio (py_lower i) (py_lower c) > init.2
        · rw [if_pos hsc]
          intro _
          exact ⟨hmem c (List.mem_cons_self _ _), rfl, hsc.1⟩
        · rw [if_neg hsc]; exact hinit
      · rw [if_neg hg]; exact hinit

/-- The first loop of `suggest_column` only returns a positive score for a
candidate whose ratio is that score and clears the 0.90 threshold. -/
theorem sc_presuf_pass_threshold (ratio : String → String → ℚ)
    (i p su : String) (columns : List String)
    (h : (sc_presuf_pass ratio i p su columns).2 > 0) :
    (sc_presuf_pass ratio i p su columns).1 ∈ columns
    ∧ ratio (py_lower i) (py_lower (sc_presuf_pass ratio i p su columns).1)
        = (sc_presuf_pass ratio i p su columns).2
    ∧ (sc_presuf_pass ratio i p su columns).2 ≥ 9/10 :=
  sc_presuf_step_inv ratio i p su columns columns (i, 0) (fun _ hc => hc)
    (fun h0 => absurd h0 (by norm_num)) h

/-- Invariant of the fallback loop: the final best score dominates every
candidate's ratio, dominates the initial score, and the final best is
either the initial pair or a candidate scored by its own ratio. -/
theorem sc_fallback_step_inv (ratio : String → String → ℚ) (i : String)
    (S : List String) :
    ∀ (l : List String) (init : String × ℚ),
      (∀ c ∈ l, c ∈ S) →
      ((∀ c ∈ l, (l.foldl (sc_fallback_step ratio i) init).2
          ≥ ratio (py_lower i) (py_lower c))
        ∧ (l.foldl (sc_fallback_step ratio i) init).2 ≥ init.2
        ∧ ((l.foldl (sc_fallback_step ratio i) init) = init
            ∨ ((l.foldl (sc_fallback_step ratio i) init).1 ∈ S
              ∧ ratio (py_lower i) (py_lower (l.foldl (sc_fallback_step ratio i) init).1)
                  = (l.foldl (sc_fallback_step ratio i) init).2))) := by
  intro l
  induction l with
  | nil =>
    intro init _
    exact ⟨fun c hc => absurd hc (List.not_mem_nil c), le_refl _, Or.inl rfl⟩
  | cons c cs ih =>
    intro init hmem
    rw [List.foldl_cons]
    obtain ⟨ih1, ih2, ih3⟩ :=
      ih (sc_fallback_step ratio i init c) (fun x hx => hmem x (List.mem_cons_of_mem _ hx))
    have hstep_ge : (sc_fallback_step ratio i init c).2 ≥ ratio (py_lower i) (py_lower c) := by
      unfold sc_fallback_step
      by_cases h : ratio (py_lower i) (py_lower c) > init.2
      · rw [if_pos h]
      · rw [if_neg h]; exact le_of_not_lt h
    have hstep_init : (sc_fallback_step ratio i init c).2 ≥ init.2 := by
      unfold sc_fallback_step
      by_cases h : ratio (py_lower i) (py_lower c) > init.2
      · rw [if_pos h]; exact le_of_lt h
      · rw [if_neg h]
    refine ⟨?_, le_trans hstep_init ih2, ?_⟩
    · intro x hx
      rcases List.mem_cons.mp hx with rfl | hx'
      · exact le_trans hstep_ge ih2
      · exact ih1 x hx'
    · rcases ih3 with heq | hgood
      · rw [heq]
        unfold sc_fallback_step
        by_cases h : ratio (py_lower i) (py_lower c) > init.2
        · rw [if_pos h]
          exact Or.inr ⟨hmem c (List.mem_cons_self _ _), rfl⟩
        · rw [if_neg h]; exact Or.inl rfl
      · exact Or.inr hgood

/-- C8: whenever some candidate's lowercased similarity ratio to the hint
`"FORD_J74_V710_B2_PP_YOTK"` is at least 0.90, `suggest_column` returns a
candidate whose ratio is at least 0.90 — via the prefix/suffix pass (which
only accepts scores ≥ 0.90) or via the all-candidates fallback (whose
maximum then is ≥ 0.90).  Stated for an arbitrary similarity-ratio
function, since the source's `difflib` ratio is an implementation detail
behind the spec's `similarityRatio` interface. -/
theorem c8_suggestion_threshold (ratio : String → String → ℚ) (columns : List String)
    (h : ∃ c ∈ columns,
        ratio (py_lower "FORD_J74_V710_B2_PP_YOTK") (py_lower c) ≥ 9/10) :
    (suggest_column ratio "FORD_J74_V710_B2_PP_YOTK" columns).1 ∈ columns
    ∧ ratio (py_lower "FORD_J74_V710_B2_PP_YOTK")
        (py_lower (suggest_column ratio "FORD_J74_V710_B2_PP_YOTK" columns).1)
      ≥ 9/10 := by
  obtain ⟨c0, hc0, hr0⟩ := h
  unfold suggest_column
  rw [if_neg (by decide), if_pos (by decide)]
  simp only []
  by_cases hb : (sc_presuf_pass ratio "FORD_J74_V710_B2_PP_YOTK"
      (String.intercalate "_" ((py_split '_' "FORD_J74_V710_B2_PP_YOTK").take 3))
      ((py_split '_' "FORD_J74_V710_B2_PP_YOTK").getLastD "") columns).2 > 0
  · rw [if_pos hb]
    obtain ⟨hmem, hrat, hge⟩ := sc_presuf_pass_threshold ratio _ _ _ columns hb
    exact ⟨hmem, by rw [hrat]; exact hge⟩
  · rw [if_neg hb]
    obtain ⟨hall, hge0, hcase⟩ :=
      sc_fallback_step_inv ratio "FORD_J74_V710_B2_PP_YOTK" columns columns
        ("FORD_J74_V710_B2_PP_YOTK", 0) (fun _ hc => hc)
    have hge : (sc_fallback ratio "FORD_J74_V710_B2_PP_YOTK" columns).2 ≥ 9/10 :=
      le_trans hr0 (hall c0 hc0)
    rcases hcase with heq | ⟨hmem, hrat⟩
    · exfalso
      have h2 := congrArg Prod.snd heq
      simp only [] at h2
      rw [show (sc_fallback ratio "FORD_J74_V710_B2_PP_YOTK" columns).2
            = ((columns.foldl (sc_fallback_step ratio "FORD_J74_V710_B2_PP_YOTK")
                ("FORD_J74_V710_B2_PP_YOTK", 0)).2) from rfl, h2] at hge
      norm_num at hge
    · exact ⟨hmem, by rw [show sc_fallback ratio "FORD_J74_V710_B2_PP_YOTK" columns
          = columns.foldl (sc_fallback_step ratio "FORD_J74_V710_B2_PP_YOTK")
              ("FORD_J74_V710_B2_PP_YOTK", 0) from rfl, hrat]; exact hge⟩

/-- Witness for C8 with the constant ratio 1 and one candidate. -/
theorem c8_suggestion_threshold_witness :
    (suggest_column (fun _ _ => (1 : ℚ)) "FORD_J74_V710_B2_PP_YOTK" ["COL"]).1 ∈ ["COL"]
    ∧ (fun _ _ => (1 : ℚ)) (py_lower "FORD_J74_V710_B2_PP_YOTK")
        (py_lower (suggest_column (fun _ _ => (1 : ℚ))
            "FORD_J74_V710_B2_PP_YOTK" ["COL"]).1)
      ≥ 9/10 :=
  c8_suggestion_threshold (fun _ _ => (1 : ℚ)) ["COL"]
    ⟨"COL", by simp, by norm_num⟩
